import Mathlib

/-!
Verification of the go-lru cache engine (`lru.go`).

The Go code is embedded shallowly:

* `entry` mirrors the Go struct `entry` (`key`, `value`, `expire` in
  nanoseconds; `expire ≤ 0`, concretely `-1`, is the "no expiration"
  sentinel).
* A Go `Cache` holds `MaxEntries`, an optional callback `OnEvicted`, a
  doubly linked list `ll` (front = most recently used) and a map `cache`
  from key to list element.  The map and the list are kept mutually
  consistent by every operation, so the model keeps only the list,
  `ll : List (entry K V)`, and derives map lookup from it; `cacheInit`
  models `c.cache != nil` (false for a zero-value, never-constructed
  cache).  `hasOnEvicted` models `c.OnEvicted != nil`; instead of running
  the callback, every operation returns the list of (key, value) pairs the
  callback is invoked on, in invocation order.
* The mutex only serialises operations; each operation is modeled as a
  pure state transformer.  `time.Now().UnixNano()` is modeled by an
  explicit `now : Int` argument.
-/

namespace GoLru

/-- Go struct `entry`: a cached item; `expire` is an absolute deadline in
nanoseconds, with values `≤ 0` (the code writes `-1`) meaning "no
expiration". -/
structure entry (K V : Type) where
  key : K
  value : V
  expire : Int
  deriving DecidableEq

/-- Go struct `Cache`, with the map/list pair collapsed to the list (the
two are kept mutually consistent by the code) and the callback replaced by
a presence flag; see the file comment. -/
structure Cache (K V : Type) where
  maxEntries : Int
  hasOnEvicted : Bool
  ll : List (entry K V)
  cacheInit : Bool
  deriving DecidableEq

/-- Result of `Cache.Set`: the `(bool, error)` return pair, the new cache
state, and the callback invocations made during the call. -/
structure SetResult (K V : Type) where
  ok : Bool
  err : Option String
  cache : Cache K V
  evicted : List (K × V)
  deriving DecidableEq

/-- Result of `Cache.Get`: the `(value, ok)` return pair, the new cache
state, and the callback invocations made during the call. -/
structure GetResult (K V : Type) where
  value : Option V
  found : Bool
  cache : Cache K V
  evicted : List (K × V)
  deriving DecidableEq

variable {K V : Type} [DecidableEq K]

/-- `NewCache(maxEntries)`: fresh cache with a non-nil map and list (the
background sweeper goroutine it also starts is modeled separately by
`sweepIter` / `runTicks`). -/
def NewCache (K V : Type) (maxEntries : Int) : Cache K V :=
  { maxEntries := maxEntries, hasOnEvicted := false, ll := [], cacheInit := true }

/-- `(*entry).isExpired`: `false` when `expire <= 0` (no expiration) or
`expire >= now`; expired only when the deadline lies strictly in the
past. -/
def isExpired (e : entry K V) (now : Int) : Bool :=
  if e.expire ≤ 0 then false
  else if e.expire ≥ now then false
  else true

/-- The Go map lookup `c.cache[key]`: the (unique, in every reachable
state) entry with this key. -/
def lookup (c : Cache K V) (k : K) : Option (entry K V) :=
  c.ll.find? (fun e => e.key == k)

/-- `(*Cache).removeElement`: unlink the element from `ll`, delete its key
from the map (in the model: erase the first — in reachable states, only —
entry with that key), and invoke `OnEvicted` if configured. -/
def removeElement (c : Cache K V) (e : entry K V) : Cache K V × List (K × V) :=
  ({ c with ll := c.ll.eraseP (fun x => x.key == e.key) },
   if c.hasOnEvicted then [(e.key, e.value)] else [])

/-- `(*Cache).removeOldest`: remove the back (least recently used) element,
if any. -/
def removeOldest (c : Cache K V) : Cache K V × List (K × V) :=
  if c.cacheInit = false then (c, [])
  else
    match c.ll.getLast? with
    | none => (c, [])
    | some e => removeElement c e

/-- The `switch t := args[0].(type)` in `Set`: the TTL argument is accepted
only at the five signed integer types, each converted to `int64`; every
other dynamic type falls to the `default` branch and is rejected. -/
inductive SetArg where
  | aInt (n : Int)
  | aInt8 (n : Int)
  | aInt16 (n : Int)
  | aInt32 (n : Int)
  | aInt64 (n : Int)
  | aUInt (n : Nat)
  | aUInt8 (n : Nat)
  | aUInt16 (n : Nat)
  | aUInt32 (n : Nat)
  | aUInt64 (n : Nat)
  | aOther
  deriving DecidableEq

/-- The type switch of `Set`, returning the `int64` TTL or the `default`
branch error. -/
def ttlOfArg : SetArg → Except String Int
  | .aInt n => .ok n
  | .aInt8 n => .ok n
  | .aInt16 n => .ok n
  | .aInt32 n => .ok n
  | .aInt64 n => .ok n
  | _ => .error "expire time should be int, int8, int16, int32, int64"

/-- The TTL-validation prefix of `Set`: `expire` stays `-1` when no
argument is given; otherwise the argument must be of a signed integer type
and `> 0`, and then `expire = now + ttl*1e9`. -/
def computeExpire (now : Int) (args : List SetArg) : Except String Int :=
  match args with
  | [] => .ok (-1)
  | arg :: _ =>
    match ttlOfArg arg with
    | .error m => .error m
    | .ok ttl =>
      if ttl ≤ 0 then .error "expire time should be > 0"
      else .ok (now + ttl * 1000000000)

/-- `(*Cache).Set`: fails on an uninitialized cache or an invalid TTL
argument (state untouched); on an existing key, `MoveToFront` plus in-place
update of value and expire (modeled as the updated entry consed onto the
list with the old occurrence erased); on a new key, `PushFront` followed by
capacity eviction of the back element when the size now exceeds a nonzero
`MaxEntries`. -/
def Set (c : Cache K V) (now : Int) (k : K) (v : V) (args : List SetArg) :
    SetResult K V :=
  if c.cacheInit = false then
    { ok := false, err := some "cache is not initialized", cache := c, evicted := [] }
  else
    match computeExpire now args with
    | .error m => { ok := false, err := some m, cache := c, evicted := [] }
    | .ok expire =>
      match lookup c k with
      | some _ =>
        { ok := true, err := none,
          cache := { c with ll := ⟨k, v, expire⟩ :: c.ll.eraseP (fun x => x.key == k) },
          evicted := [] }
      | none =>
        let c1 : Cache K V := { c with ll := ⟨k, v, expire⟩ :: c.ll }
        if c.maxEntries ≠ 0 ∧ (c1.ll.length : Int) > c.maxEntries then
          let r := removeOldest c1
          { ok := true, err := none, cache := r.1, evicted := r.2 }
        else
          { ok := true, err := none, cache := c1, evicted := [] }

/-- `(*Cache).Get`: not-found on an uninitialized cache or an absent key;
a present-but-expired entry is reclaimed via `removeElement` and reported
as not-found; otherwise the entry is moved to the front and its value
returned. -/
def Get (c : Cache K V) (now : Int) (k : K) : GetResult K V :=
  if c.cacheInit = false then
    { value := none, found := false, cache := c, evicted := [] }
  else
    match lookup c k with
    | some e =>
      if isExpired e now then
        let r := removeElement c e
        { value := none, found := false, cache := r.1, evicted := r.2 }
      else
        { value := some e.value, found := true,
          cache := { c with ll := e :: c.ll.eraseP (fun x => x.key == k) },
          evicted := [] }
    | none => { value := none, found := false, cache := c, evicted := [] }

/-- `(*Cache).Remove`: no-op on an uninitialized cache or an absent key;
otherwise removes the entry through `removeElement` (so the callback does
run). -/
def Remove (c : Cache K V) (k : K) : Cache K V × List (K × V) :=
  if c.cacheInit = false then (c, [])
  else
    match lookup c k with
    | some e => removeElement c e
    | none => (c, [])

/-- `(*Cache).Len`: 0 on an uninitialized cache, else `c.ll.Len()`. -/
def Len (c : Cache K V) : Nat :=
  if c.cacheInit = false then 0 else c.ll.length

/-- `(*Cache).TTL`: `-2` on an uninitialized cache or an absent key; `-1`
for an entry without expiration; otherwise the remaining nanoseconds
divided by `1e9` when positive, and `0` when the deadline has passed. -/
def TTL (c : Cache K V) (now : Int) (k : K) : Int :=
  if c.cacheInit = false then -2
  else
    match lookup c k with
    | some e =>
      if e.expire ≤ 0 then -1
      else
        let ttl := e.expire - now
        if ttl > 0 then ttl / 1000000000 else 0
    | none => -2

/-- The per-tick sample size of `expiredBackground`, with `hz = 10` and
`minIterations = 50`: `numEntries / (hz*10)`, raised to `minIterations`
when smaller, except that a cache of fewer than 50 entries is swept in
full. -/
def tickIterations (numEntries : Nat) : Nat :=
  let hz : Nat := 10
  let minIterations : Nat := 50
  let iterations := numEntries / (hz * 10)
  if iterations < minIterations then
    if numEntries < 50 then numEntries else minIterations
  else iterations

/-- The per-tick loop of `expiredBackground`
(`for i := 0; i < iterations && c.ll.Len() > 0; i++`): examine the back
element; an expired one is reclaimed via `removeElement`, a live one is
moved to the front.  The whole pass is modeled at a single instant
`now`. -/
def sweepIter (now : Int) : Nat → Cache K V → Cache K V × List (K × V)
  | 0, c => (c, [])
  | n + 1, c =>
    match c.ll.getLast? with
    | none => (c, [])
    | some e =>
      if isExpired e now then
        let r := removeElement c e
        let r2 := sweepIter now n r.1
        (r2.1, r.2 ++ r2.2)
      else
        sweepIter now n { c with ll := e :: c.ll.dropLast }

/-- One full tick of `expiredBackground`: the sampled pass with the sample
size computed from the current length. -/
def expiredTick (now : Int) (c : Cache K V) : Cache K V × List (K × V) :=
  sweepIter now (tickIterations c.ll.length) c

/-- Outcome of one tick body of the sweeper goroutine: a new cache state,
or a runtime fault (panic) raised inside the body. -/
inductive TickOutcome (σ : Type) where
  | ok (s : σ)
  | fault

/-- The `for { select { case <-ticker.C: ... } }` loop of
`expiredBackground`, driven by an abstract list of tick bodies: ticks run
in order; a fault in a body aborts the loop and unwinds toward the
deferred handler.  Returns the final state, the number of tick bodies that
ran, and whether a fault unwound out of the loop. -/
def runTicks {σ : Type} : List (σ → TickOutcome σ) → σ → σ × Nat × Bool
  | [], s => (s, 0, false)
  | t :: ts, s =>
    match t s with
    | .ok s1 =>
      let r := runTicks ts s1
      (r.1, r.2.1 + 1, r.2.2)
    | .fault => (s, 1, true)

/-- `expiredBackground` as a whole: the loop wrapped in
`defer func() { recover() }()`, so any fault that unwinds out of the loop
is swallowed and the goroutine returns normally — the third component
(whether a fault is surfaced beyond the goroutine) is always `false`. -/
def expiredBackgroundRun {σ : Type} (ts : List (σ → TickOutcome σ)) (s : σ) :
    σ × Nat × Bool :=
  let r := runTicks ts s
  (r.1, r.2.1, false)

/-! ## Helper lemmas -/

/-- The map lookup misses exactly when no live entry carries the key. -/
lemma lookup_eq_none (c : Cache K V) (k : K) :
    lookup c k = none ↔ k ∉ c.ll.map entry.key := by
  simp only [lookup, List.find?_eq_none, beq_iff_eq, List.mem_map, not_exists]
  constructor
  · rintro h x ⟨hx, rfl⟩
    exact h x hx rfl
  · rintro h x hx rfl
    exact h x ⟨hx, rfl⟩

/-- A successful map lookup returns an entry of the list carrying the key. -/
lemma lookup_eq_some (c : Cache K V) (k : K) (e : entry K V)
    (h : lookup c k = some e) : e ∈ c.ll ∧ e.key = k := by
  refine ⟨List.mem_of_find?_eq_some h, ?_⟩
  have := List.find?_some h
  simpa using this

/-- Erasing the key of the back element only removes the back element, when
keys are unique. -/
lemma eraseP_key_concat (A : List (entry K V)) (e : entry K V)
    (h : e.key ∉ A.map entry.key) :
    List.eraseP (fun x => x.key == e.key) (A ++ [e]) = A := by
  rw [List.eraseP_append_right]
  · simp [List.eraseP_cons]
  · intro b hb
    simp only [beq_iff_eq]
    intro hbe
    exact h (List.mem_map.mpr ⟨b, hb, hbe⟩)

/-- With unique keys, erasing the first entry with a key is the same as
filtering that key out. -/
lemma eraseP_eq_filter_of_nodup (l : List (entry K V)) (k : K)
    (hnd : (l.map entry.key).Nodup) :
    l.eraseP (fun x => x.key == k) = l.filter (fun x => !(x.key == k)) := by
  induction l with
  | nil => rfl
  | cons a l ih =>
    simp only [List.map_cons, List.nodup_cons] at hnd
    by_cases h : a.key = k
    · have hother : ∀ x ∈ l, ¬(x.key = k) := by
        intro x hx hxk
        exact hnd.1 (h ▸ hxk ▸ List.mem_map.mpr ⟨x, hx, rfl⟩)
      rw [List.eraseP_cons, List.filter_cons]
      simp only [h, beq_self_eq_true, cond_true, Bool.not_true, if_neg]
      rw [List.filter_eq_self.mpr ?_]
      · simp
      · intro x hx
        simpa using hother x hx
    · rw [List.eraseP_cons, List.filter_cons]
      have hb : (a.key == k) = false := by simpa using h
      simp only [hb, cond_false, Bool.not_false, if_pos trivial, ite_true]
      rw [ih hnd.2]

/-! ## Claim C8 — zero-value cache -/

/-- Claim C8: on a zero-value, never-constructed cache (nil map), `Set`
fails with an error while `Get`, `TTL` and `Len` degrade gracefully to
not-found / the `-2` sentinel / 0. -/
theorem claim8_uninitialized (c : Cache K V) (now : Int) (k : K) (v : V)
    (args : List SetArg) (h : c.cacheInit = false) :
    Set c now k v args =
      ⟨false, some "cache is not initialized", c, []⟩ ∧
    Get c now k = ⟨none, false, c, []⟩ ∧
    TTL c now k = -2 ∧
    Len c = 0 := by
  refine ⟨?_, ?_, ?_, ?_⟩ <;> simp [Set, Get, TTL, Len, h]

/-- Witness for C8 at a concrete zero-value cache. -/
theorem claim8_witness :
    Set (⟨0, false, [], false⟩ : Cache Nat Nat) 0 1 2 [] =
      ⟨false, some "cache is not initialized", ⟨0, false, [], false⟩, []⟩ ∧
    Get (⟨0, false, [], false⟩ : Cache Nat Nat) 0 1 = ⟨none, false, ⟨0, false, [], false⟩, []⟩ ∧
    TTL (⟨0, false, [], false⟩ : Cache Nat Nat) 0 1 = -2 ∧
    Len (⟨0, false, [], false⟩ : Cache Nat Nat) = 0 :=
  claim8_uninitialized ⟨0, false, [], false⟩ 0 1 2 [] rfl

/-! ## Claim C1 — TTL query -/

/-- Claim C1 (amended): `TTL` returns `-2` for an absent key, `-1` for an
entry without expiration, the floored remaining whole seconds (never
negative) for a live deadline — and `0`, not `-2`, for a present entry
whose deadline has already passed. -/
theorem claim1_ttl_outcomes (c : Cache K V) (now : Int) (k : K)
    (hinit : c.cacheInit = true) :
    (lookup c k = none → TTL c now k = -2) ∧
    (∀ e, lookup c k = some e → e.expire ≤ 0 → TTL c now k = -1) ∧
    (∀ e, lookup c k = some e → 0 < e.expire → e.expire - now ≤ 0 →
      TTL c now k = 0) ∧
    (∀ e, lookup c k = some e → 0 < e.expire → 0 < e.expire - now →
      TTL c now k = (e.expire - now) / 1000000000 ∧ 0 ≤ TTL c now k) := by
  refine ⟨?_, ?_, ?_, ?_⟩
  · intro h
    simp [TTL, hinit, h]
  · intro e he h
    simp [TTL, hinit, he, h]
  · intro e he h1 h2
    simp only [TTL, hinit, Bool.true_eq_false, if_false, he]
    rw [if_neg (by omega), if_neg (by omega)]
  · intro e he h1 h2
    have : TTL c now k = (e.expire - now) / 1000000000 := by
      simp only [TTL, hinit, Bool.true_eq_false, if_false, he]
      rw [if_neg (by omega), if_pos (by omega)]
    exact ⟨this, this ▸ Int.ediv_nonneg (by omega) (by norm_num)⟩

/-- Counterexample for C1 as stated: a present but logically expired,
not-yet-reclaimed entry makes `TTL` return `0`, not the `-2` not-found
sentinel. -/
theorem claim1_counterexample :
    lookup (⟨0, false, [⟨1, 7, 5⟩], true⟩ : Cache Nat Nat) 1 ≠ none ∧
    isExpired (⟨1, 7, 5⟩ : entry Nat Nat) 10 = true ∧
    TTL (⟨0, false, [⟨1, 7, 5⟩], true⟩ : Cache Nat Nat) 10 1 = 0 ∧
    TTL (⟨0, false, [⟨1, 7, 5⟩], true⟩ : Cache Nat Nat) 10 1 ≠ -2 := by
  decide

/-- Witness for C1 at concrete inputs: the no-expiration sentinel and a
live deadline. -/
theorem claim1_witness :
    TTL (⟨0, false, [⟨1, 7, -1⟩], true⟩ : Cache Nat Nat) 10 1 = -1 ∧
    TTL (⟨0, false, [⟨1, 7, 5000000000⟩], true⟩ : Cache Nat Nat) 1000000000 1 = 4 := by
  constructor
  · exact (claim1_ttl_outcomes ⟨0, false, [⟨1, 7, -1⟩], true⟩ 10 1 rfl).2.1
      ⟨1, 7, -1⟩ (by decide) (by decide)
  · have h := (claim1_ttl_outcomes (⟨0, false, [⟨1, 7, 5000000000⟩], true⟩ : Cache Nat Nat)
      1000000000 1 rfl).2.2.2 ⟨1, 7, 5000000000⟩ (by decide) (by decide) (by decide)
    rw [h.1]
    decide

/-! ## Claim C6 — TTL validation -/

/-- Claim C6: a `Set` whose TTL argument is of a rejected dynamic type or
is `≤ 0` returns a validation error and leaves the cache completely
unchanged. -/
theorem claim6_invalid_ttl_rejected (c : Cache K V) (now : Int) (k : K)
    (v : V) (arg : SetArg) (hinit : c.cacheInit = true)
    (h : (∃ m, ttlOfArg arg = .error m) ∨ ∃ t, ttlOfArg arg = .ok t ∧ t ≤ 0) :
    (Set c now k v [arg]).ok = false ∧
    (Set c now k v [arg]).err ≠ none ∧
    (Set c now k v [arg]).cache = c ∧
    (Set c now k v [arg]).evicted = [] := by
  rcases h with ⟨m, hm⟩ | ⟨t, ht, hle⟩
  · simp [Set, computeExpire, hinit, hm]
  · simp only [Set, computeExpire, hinit, Bool.true_eq_false, if_false, ht]
    rw [if_pos hle]
    simp

/-- Witness for C6: `Set("k", v, 0)` on a one-entry cache fails and
changes nothing. -/
theorem claim6_witness :
    (Set (⟨0, false, [⟨1, 7, -1⟩], true⟩ : Cache Nat Nat) 0 1 9 [.aInt 0]).ok = false ∧
    (Set (⟨0, false, [⟨1, 7, -1⟩], true⟩ : Cache Nat Nat) 0 1 9 [.aInt 0]).err ≠ none ∧
    (Set (⟨0, false, [⟨1, 7, -1⟩], true⟩ : Cache Nat Nat) 0 1 9 [.aInt 0]).cache =
      ⟨0, false, [⟨1, 7, -1⟩], true⟩ ∧
    (Set (⟨0, false, [⟨1, 7, -1⟩], true⟩ : Cache Nat Nat) 0 1 9 [.aInt 0]).evicted = [] :=
  claim6_invalid_ttl_rejected ⟨0, false, [⟨1, 7, -1⟩], true⟩ 0 1 9 (.aInt 0) rfl
    (Or.inr ⟨0, rfl, by decide⟩)

/-- An accepted TTL (or none) makes `Set` report success, on an
initialized cache. -/
lemma Set_accepted_ok (c : Cache K V) (now : Int) (k : K) (v : V)
    (args : List SetArg) (hinit : c.cacheInit = true) (t : Int)
    (hce : computeExpire now args = .ok t) :
    (Set c now k v args).ok = true ∧ (Set c now k v args).err = none := by
  simp only [Set, hinit, Bool.true_eq_false, if_false, hce]
  cases hl : lookup c k
  · simp only [hl]
    split
    · simp
    · simp
  · simp [hl]

/-- A positive TTL of an accepted type passes validation, yielding
`now + ttl*1e9`. -/
lemma computeExpire_pos (now t : Int) (ht : 0 < t) (arg : SetArg)
    (ha : ttlOfArg arg = .ok t) :
    computeExpire now [arg] = .ok (now + t * 1000000000) := by
  simp only [computeExpire, ha]
  rw [if_neg (by omega)]

/-! ## Claim C10 — accepted TTL argument types -/

/-- Claim C10: the TTL argument is accepted only at the five signed
integer types; every unsigned integer argument (whatever its value) and
every other type is rejected with the validation error, leaving the cache
unchanged, while a positive signed integer is accepted. -/
theorem claim10_signed_types_only (c : Cache K V) (now : Int) (k : K) (v : V)
    (hinit : c.cacheInit = true) :
    (∀ n : Nat,
      Set c now k v [.aUInt n] =
        ⟨false, some "expire time should be int, int8, int16, int32, int64", c, []⟩ ∧
      Set c now k v [.aUInt8 n] =
        ⟨false, some "expire time should be int, int8, int16, int32, int64", c, []⟩ ∧
      Set c now k v [.aUInt16 n] =
        ⟨false, some "expire time should be int, int8, int16, int32, int64", c, []⟩ ∧
      Set c now k v [.aUInt32 n] =
        ⟨false, some "expire time should be int, int8, int16, int32, int64", c, []⟩ ∧
      Set c now k v [.aUInt64 n] =
        ⟨false, some "expire time should be int, int8, int16, int32, int64", c, []⟩) ∧
    (Set c now k v [.aOther] =
      ⟨false, some "expire time should be int, int8, int16, int32, int64", c, []⟩) ∧
    (∀ t : Int, 0 < t →
      ((Set c now k v [.aInt t]).ok = true ∧ (Set c now k v [.aInt t]).err = none) ∧
      ((Set c now k v [.aInt8 t]).ok = true ∧ (Set c now k v [.aInt8 t]).err = none) ∧
      ((Set c now k v [.aInt16 t]).ok = true ∧ (Set c now k v [.aInt16 t]).err = none) ∧
      ((Set c now k v [.aInt32 t]).ok = true ∧ (Set c now k v [.aInt32 t]).err = none) ∧
      ((Set c now k v [.aInt64 t]).ok = true ∧ (Set c now k v [.aInt64 t]).err = none)) := by
  refine ⟨?_, ?_, ?_⟩
  · intro n
    refine ⟨?_, ?_, ?_, ?_, ?_⟩ <;> simp [Set, computeExpire, ttlOfArg, hinit]
  · simp [Set, computeExpire, ttlOfArg, hinit]
  · intro t ht
    exact ⟨Set_accepted_ok c now k v _ hinit _ (computeExpire_pos now t ht _ rfl),
      Set_accepted_ok c now k v _ hinit _ (computeExpire_pos now t ht _ rfl),
      Set_accepted_ok c now k v _ hinit _ (computeExpire_pos now t ht _ rfl),
      Set_accepted_ok c now k v _ hinit _ (computeExpire_pos now t ht _ rfl),
      Set_accepted_ok c now k v _ hinit _ (computeExpire_pos now t ht _ rfl)⟩

/-- Witness for C10: a positive `uint` TTL is rejected while the same
value as `int` is accepted. -/
theorem claim10_witness :
    Set (⟨0, false, [], true⟩ : Cache Nat Nat) 0 1 2 [.aUInt 3] =
      ⟨false, some "expire time should be int, int8, int16, int32, int64",
        ⟨0, false, [], true⟩, []⟩ ∧
    (Set (⟨0, false, [], true⟩ : Cache Nat Nat) 0 1 2 [.aInt 3]).ok = true := by
  have h := claim10_signed_types_only (⟨0, false, [], true⟩ : Cache Nat Nat) 0 1 2 rfl
  exact ⟨(h.1 3).1, ((h.2.2 3 (by decide)).1).1⟩

/-! ## Claim C9 — Set on an existing key -/

/-- Claim C9: a `Set` on an already present key replaces that entry's
value and expiration and moves it to the head, leaves every other entry
untouched and in order, keeps `Len` unchanged, invokes no eviction
callback, and never triggers capacity eviction — no bound on the current
size relative to `maxEntries` is assumed. -/
theorem claim9_set_existing_key (c : Cache K V) (now : Int) (k : K) (v : V)
    (args : List SetArg) (hinit : c.cacheInit = true)
    (hnd : (c.ll.map entry.key).Nodup) (e : entry K V)
    (he : lookup c k = some e) (expire : Int)
    (hce : computeExpire now args = .ok expire) :
    Set c now k v args =
      ⟨true, none,
        { c with ll := ⟨k, v, expire⟩ :: c.ll.filter (fun x => !(x.key == k)) },
        []⟩ ∧
    Len (Set c now k v args).cache = Len c := by
  have hmain : Set c now k v args =
      ⟨true, none,
        { c with ll := ⟨k, v, expire⟩ :: c.ll.filter (fun x => !(x.key == k)) },
        []⟩ := by
    simp only [Set, hinit, Bool.true_eq_false, if_false, hce, he]
    rw [eraseP_eq_filter_of_nodup c.ll k hnd]
  obtain ⟨hmem, hkey⟩ := lookup_eq_some c k e he
  have hpos : 0 < c.ll.length := List.length_pos.mpr (List.ne_nil_of_mem hmem)
  have hlen : (c.ll.filter (fun x => !(x.key == k))).length = c.ll.length - 1 := by
    rw [← eraseP_eq_filter_of_nodup c.ll k hnd]
    exact List.length_eraseP_of_mem hmem (by simp [hkey])
  refine ⟨hmain, ?_⟩
  rw [hmain]
  simp only [Len, hinit, Bool.true_eq_false, if_false, List.length_cons, hlen]
  omega

/-- Witness for C9: updating the present key `1` on a two-entry cache with
`maxEntries = 1` (already over capacity) evicts nothing and keeps the
size. -/
theorem claim9_witness :
    Set (⟨1, true, [⟨2, 8, -1⟩, ⟨1, 7, -1⟩], true⟩ : Cache Nat Nat) 0 1 9 [] =
      ⟨true, none, ⟨1, true, [⟨1, 9, -1⟩, ⟨2, 8, -1⟩], true⟩, []⟩ ∧
    Len (Set (⟨1, true, [⟨2, 8, -1⟩, ⟨1, 7, -1⟩], true⟩ : Cache Nat Nat) 0 1 9 []).cache = 2 := by
  have h := claim9_set_existing_key
    (⟨1, true, [⟨2, 8, -1⟩, ⟨1, 7, -1⟩], true⟩ : Cache Nat Nat) 0 1 9 []
    rfl (by decide) ⟨1, 7, -1⟩ (by decide) (-1) rfl
  refine ⟨?_, ?_⟩
  · rw [h.1]
    decide
  · rw [h.2]
    decide

/-! ## Claim C5 — Get semantics -/

/-- Claim C5: `Get` misses on an absent key; a present-but-expired entry
is reclaimed (gone from index and ordering structure, eviction callback
invoked) and reported as a miss; a live entry is promoted to the head and
its value returned. -/
theorem claim5_get_semantics (c : Cache K V) (now : Int) (k : K)
    (hinit : c.cacheInit = true) (hnd : (c.ll.map entry.key).Nodup) :
    (lookup c k = none → Get c now k = ⟨none, false, c, []⟩) ∧
    (∀ e, lookup c k = some e → isExpired e now = true →
      Get c now k =
        ⟨none, false, { c with ll := c.ll.filter (fun x => !(x.key == k)) },
          if c.hasOnEvicted then [(e.key, e.value)] else []⟩ ∧
      lookup (Get c now k).cache k = none) ∧
    (∀ e, lookup c k = some e → isExpired e now = false →
      Get c now k =
        ⟨some e.value, true,
          { c with ll := e :: c.ll.filter (fun x => !(x.key == k)) }, []⟩) := by
  refine ⟨?_, ?_, ?_⟩
  · intro h
    simp [Get, hinit, h]
  · intro e he hexp
    obtain ⟨hmem, hkey⟩ := lookup_eq_some c k e he
    have hget : Get c now k =
        ⟨none, false, { c with ll := c.ll.filter (fun x => !(x.key == k)) },
          if c.hasOnEvicted then [(e.key, e.value)] else []⟩ := by
      simp only [Get, hinit, Bool.true_eq_false, if_false, he, hexp, removeElement,
        if_true, hkey]
      rw [eraseP_eq_filter_of_nodup c.ll k hnd]
    refine ⟨hget, ?_⟩
    rw [hget, lookup_eq_none]
    intro hmem2
    obtain ⟨x, hx, hxk⟩ := List.mem_map.mp hmem2
    have := (List.mem_filter.mp hx).2
    simp [hxk] at this
  · intro e he hexp
    simp only [Get, hinit, Bool.true_eq_false, if_false, he, hexp]
    rw [eraseP_eq_filter_of_nodup c.ll k hnd]
    simp

/-- Witness for C5 at concrete inputs: a hit on a live entry promotes it
to the head, and an expired entry is reclaimed on read with the callback
invoked. -/
theorem claim5_witness :
    Get (⟨0, true, [⟨2, 8, -1⟩, ⟨1, 7, -1⟩], true⟩ : Cache Nat Nat) 0 1 =
      ⟨some 7, true, ⟨0, true, [⟨1, 7, -1⟩, ⟨2, 8, -1⟩], true⟩, []⟩ ∧
    Get (⟨0, true, [⟨2, 8, -1⟩, ⟨1, 7, 5⟩], true⟩ : Cache Nat Nat) 10 1 =
      ⟨none, false, ⟨0, true, [⟨2, 8, -1⟩], true⟩, [(1, 7)]⟩ := by
  refine ⟨?_, ?_⟩
  · have h := (claim5_get_semantics
      (⟨0, true, [⟨2, 8, -1⟩, ⟨1, 7, -1⟩], true⟩ : Cache Nat Nat) 0 1
      rfl (by decide)).2.2 ⟨1, 7, -1⟩ (by decide) (by decide)
    rw [h]
    decide
  · have h := ((claim5_get_semantics
      (⟨0, true, [⟨2, 8, -1⟩, ⟨1, 7, 5⟩], true⟩ : Cache Nat Nat) 10 1
      rfl (by decide)).2.1 ⟨1, 7, 5⟩ (by decide) (by decide)).1
    rw [h]
    decide

/-! ## Claim C3 — eviction callback scope -/

/-- Claim C3 (amended): the configured eviction callback is invoked
synchronously on every removal performed through the single low-level
removal path — capacity eviction, expiry reclamation on read, expiry
reclamation by the sweeper, and also explicit caller-initiated `Remove` of
a present key. -/
theorem claim3_callback_scope (c : Cache K V) (now : Int) (k : K) (v : V)
    (hinit : c.cacheInit = true) (hcb : c.hasOnEvicted = true) :
    (∀ e, lookup c k = some e → (Remove c k).2 = [(e.key, e.value)]) ∧
    (∀ e, lookup c k = some e → isExpired e now = true →
      (Get c now k).evicted = [(e.key, e.value)]) ∧
    (∀ t, lookup c k = none → c.ll.getLast? = some t →
      c.maxEntries = (c.ll.length : Int) → 0 < c.maxEntries →
      (Set c now k v []).evicted = [(t.key, t.value)]) ∧
    (∀ e n, c.ll.getLast? = some e → isExpired e now = true →
      (sweepIter now (n + 1) c).2.take 1 = [(e.key, e.value)]) := by
  refine ⟨?_, ?_, ?_, ?_⟩
  · intro e he
    simp [Remove, hinit, he, removeElement, hcb]
  · intro e he hexp
    simp [Get, hinit, he, hexp, removeElement, hcb]
  · intro t hnone hlast hmax hpos
    have hne : c.ll ≠ [] := by
      intro h
      rw [h] at hlast
      simp at hlast
    simp only [Set, hinit, Bool.true_eq_false, if_false, computeExpire, hnone]
    rw [if_pos ⟨by omega, by simp only [List.length_cons]; push_cast; omega⟩]
    simp only [removeOldest, removeElement]
    rw [if_neg (by simp)]
    rw [show (⟨k, v, -1⟩ : entry K V) :: c.ll = [⟨k, v, -1⟩] ++ c.ll from rfl,
      List.getLast?_append_of_ne_nil _ hne, hlast]
    simp [hcb]
  · intro e n hlast hexp
    simp [sweepIter, hlast, hexp, removeElement, hcb]

/-- Counterexample for C3 as stated: an explicit caller-initiated `Remove`
of a present key does invoke the configured eviction callback. -/
theorem claim3_counterexample :
    (Remove (⟨0, true, [⟨1, 7, -1⟩], true⟩ : Cache Nat Nat) 1).2 = [(1, 7)] ∧
    (Remove (⟨0, true, [⟨1, 7, -1⟩], true⟩ : Cache Nat Nat) 1).2 ≠ [] := by
  decide

/-- Witness for C3 at concrete inputs: a capacity eviction and an
expiry reclamation on read both invoke the callback. -/
theorem claim3_witness :
    (Set (⟨1, true, [⟨2, 8, -1⟩], true⟩ : Cache Nat Nat) 0 1 9 []).evicted = [(2, 8)] ∧
    (Get (⟨0, true, [⟨1, 7, 5⟩], true⟩ : Cache Nat Nat) 10 1).evicted = [(1, 7)] :=
  ⟨(claim3_callback_scope (⟨1, true, [⟨2, 8, -1⟩], true⟩ : Cache Nat Nat) 0 1 9
      rfl rfl).2.2.1 ⟨2, 8, -1⟩ (by decide) (by decide) (by decide) (by decide),
   (claim3_callback_scope (⟨0, true, [⟨1, 7, 5⟩], true⟩ : Cache Nat Nat) 10 1 9
      rfl rfl).2.1 ⟨1, 7, 5⟩ (by decide) (by decide)⟩

/-! ## Claim C2 — sweeper fault handling -/

/-- Claim C2 (amended): a runtime fault during one tick unwinds to the
function-scope `defer`/`recover` of `expiredBackground`, so it is absorbed
and never surfaced beyond the goroutine — but the loop has already been
left, so no tick after the fault ever runs: the background reclamation
stops permanently. -/
theorem claim2_fault_absorbed_task_stops {σ : Type}
    (ts more : List (σ → TickOutcome σ)) (s : σ)
    (h : (runTicks ts s).2.2 = true) :
    (expiredBackgroundRun (ts ++ more) s).2.2 = false ∧
    runTicks (ts ++ more) s = runTicks ts s ∧
    expiredBackgroundRun (ts ++ more) s = expiredBackgroundRun ts s := by
  have key : runTicks (ts ++ more) s = runTicks ts s := by
    induction ts generalizing s with
    | nil => simp [runTicks] at h
    | cons t ts ih =>
      cases ht : t s with
      | ok s1 =>
        simp only [runTicks, ht] at h
        simp only [List.cons_append, runTicks, ht]
        simp only [List.append_eq, ih s1 h]
      | fault =>
        simp only [List.cons_append, runTicks, ht]
  exact ⟨rfl, key, by simp only [expiredBackgroundRun, key]⟩

/-- Counterexample for C2 as stated: with a faulting first tick followed
by a second tick, only one tick body ever runs — the task does not
continue at the next tick. -/
theorem claim2_counterexample :
    (expiredBackgroundRun
        [fun _ => TickOutcome.fault, fun s => TickOutcome.ok (s + 1)] (0 : Nat)).2.1 = 1 ∧
    (expiredBackgroundRun
        [fun _ => TickOutcome.fault, fun s => TickOutcome.ok (s + 1)] (0 : Nat)).1 = 0 ∧
    (expiredBackgroundRun
        [fun _ => TickOutcome.fault, fun s => TickOutcome.ok (s + 1)] (0 : Nat)).2.1 ≠ 2 := by
  exact ⟨rfl, rfl, by decide⟩

/-- Witness for C2 at a concrete input: the fault is not surfaced, and
appending further ticks after the fault changes nothing. -/
theorem claim2_witness :
    (expiredBackgroundRun
        ([fun _ => TickOutcome.fault] ++ [fun (s : Nat) => TickOutcome.ok (s + 1)]) 0).2.2
      = false ∧
    runTicks ([fun _ => TickOutcome.fault] ++ [fun (s : Nat) => TickOutcome.ok (s + 1)]) 0 =
      runTicks [fun _ => TickOutcome.fault] (0 : Nat) :=
  ⟨(claim2_fault_absorbed_task_stops [fun _ => TickOutcome.fault]
      [fun s => TickOutcome.ok (s + 1)] 0 rfl).1,
   (claim2_fault_absorbed_task_stops [fun _ => TickOutcome.fault]
      [fun s => TickOutcome.ok (s + 1)] 0 rfl).2.1⟩

/-! ## Claim C4 — capacity invariant -/

/-- A sequence of `Set` calls (no TTL argument), key/value pairs applied
in order. -/
def setFold (c : Cache K V) (kvs : List (K × V)) : Cache K V :=
  kvs.foldl (fun c kv => (Set c 0 kv.1 kv.2 []).cache) c

/-- Truncating the second summand before an append changes nothing once
the whole append is truncated to the same length. -/
lemma take_append_take {α : Type} (A B : List α) (M : Nat) :
    (A ++ B.take M).take M = (A ++ B).take M := by
  rw [List.take_append_eq_append_take, List.take_append_eq_append_take, List.take_take]
  congr 1
  rw [min_eq_left (Nat.sub_le M A.length)]

/-- One `Set` of a fresh key on a cache of capacity `M` holding at most
`M` unique-keyed entries: the new entry is pushed to the front and the
list is truncated back to `M` entries (the back one evicted) exactly when
it would exceed `M`. -/
lemma Set_fresh_step (c : Cache K V) (k : K) (v : V) (M : Nat) (hM : 0 < M)
    (hinit : c.cacheInit = true) (hmax : c.maxEntries = (M : Int))
    (hlen : c.ll.length ≤ M) (hnd : (c.ll.map entry.key).Nodup)
    (hk : k ∉ c.ll.map entry.key) :
    (Set c 0 k v []).cache =
      { c with ll := ((⟨k, v, -1⟩ : entry K V) :: c.ll).take M } := by
  have hnone : lookup c k = none := (lookup_eq_none c k).mpr hk
  simp only [Set, hinit, Bool.true_eq_false, if_false, computeExpire, hnone]
  by_cases hcase : c.ll.length = M
  · rw [if_pos ⟨by omega, by simp only [List.length_cons, hcase, hmax]; push_cast; omega⟩]
    rcases c.ll.eq_nil_or_concat with hnil | ⟨A, t, hAt⟩
    · rw [hnil] at hcase
      simp at hcase
      omega
    · rw [List.concat_eq_append] at hAt
      have hknotA : k ∉ (A.map entry.key) ∧ k ≠ t.key := by
        rw [hAt] at hk
        simp only [List.map_append, List.map_cons, List.map_nil, List.mem_append,
          List.mem_cons, List.mem_singleton] at hk
        push_neg at hk
        exact ⟨hk.1, hk.2.1⟩
      have htA : t.key ∉ A.map entry.key := by
        rw [hAt] at hnd
        simp only [List.map_append, List.map_cons, List.map_nil] at hnd
        have := List.nodup_append_comm.mp hnd
        simp only [List.singleton_append, List.nodup_cons] at this
        exact this.1
      simp only [removeOldest, removeElement]
      rw [if_neg (by simp)]
      rw [hAt, show (⟨k, v, -1⟩ : entry K V) :: (A ++ [t]) =
        ((⟨k, v, -1⟩ : entry K V) :: A) ++ [t] from rfl, List.getLast?_concat]
      simp only []
      have herase : List.eraseP (fun x => x.key == t.key)
          (((⟨k, v, -1⟩ : entry K V) :: A) ++ [t]) = (⟨k, v, -1⟩ : entry K V) :: A := by
        apply eraseP_key_concat
        simp only [List.map_cons, List.mem_cons]
        push_neg
        exact ⟨fun h => hknotA.2 h.symm, htA⟩
      rw [herase]
      have hlenA : A.length + 1 = M := by
        rw [hAt] at hcase
        simpa using hcase
      have htake : (((⟨k, v, -1⟩ : entry K V) :: A) ++ [t]).take M =
          (⟨k, v, -1⟩ : entry K V) :: A := by
        rw [List.take_append_of_le_length (by simp; omega),
          List.take_of_length_le (by simp; omega)]
      rw [htake]
  · rw [if_neg (by
      rintro ⟨h1, h2⟩
      simp only [List.length_cons, hmax] at h2
      push_cast at h2
      omega)]
    rw [List.take_of_length_le (by simp; omega)]

/-- Invariant of the `Set` fold: starting from a cache of capacity `M`
whose list is short enough and key-disjoint from the fresh keys being
inserted, the final list is the reversed insertion sequence truncated to
`M`. -/
lemma setFold_ll (M : Nat) (hM : 0 < M) :
    ∀ (kvs : List (K × V)) (c : Cache K V),
      c.cacheInit = true → c.maxEntries = (M : Int) →
      c.ll.length ≤ M → (c.ll.map entry.key).Nodup →
      (kvs.map Prod.fst).Nodup →
      (∀ p ∈ kvs, p.1 ∉ c.ll.map entry.key) →
      (setFold c kvs).cacheInit = true ∧
      (setFold c kvs).ll =
        ((kvs.map (fun p => (⟨p.1, p.2, -1⟩ : entry K V))).reverse ++ c.ll).take M := by
  intro kvs
  induction kvs with
  | nil =>
    intro c h1 h2 h3 h4 h5 h6
    refine ⟨h1, ?_⟩
    simp only [setFold, List.foldl_nil, List.map_nil, List.reverse_nil, List.nil_append]
    rw [List.take_of_length_le h3]
  | cons kv kvs ih =>
    intro c h1 h2 h3 h4 h5 h6
    have hstep := Set_fresh_step c kv.1 kv.2 M hM h1 h2 h3 h4
      (h6 kv (List.mem_cons_self _ _))
    have hfold : setFold c (kv :: kvs) = setFold (Set c 0 kv.1 kv.2 []).cache kvs := rfl
    have hc1init : (Set c 0 kv.1 kv.2 []).cache.cacheInit = true := by rw [hstep]; exact h1
    have hc1max : (Set c 0 kv.1 kv.2 []).cache.maxEntries = (M : Int) := by
      rw [hstep]; exact h2
    have hc1ll : (Set c 0 kv.1 kv.2 []).cache.ll =
        ((⟨kv.1, kv.2, -1⟩ : entry K V) :: c.ll).take M := by rw [hstep]
    have hc1len : (Set c 0 kv.1 kv.2 []).cache.ll.length ≤ M := by
      rw [hc1ll, List.length_take]
      omega
    have hndcons : ((kv.1 : K) :: c.ll.map entry.key).Nodup := by
      rw [List.nodup_cons]
      exact ⟨h6 kv (List.mem_cons_self _ _), h4⟩
    have hc1nd : ((Set c 0 kv.1 kv.2 []).cache.ll.map entry.key).Nodup := by
      rw [hc1ll, List.map_take]
      exact List.Nodup.sublist (List.take_sublist _ _) (by simpa using hndcons)
    have hkvsnd : (kvs.map Prod.fst).Nodup := by
      simp only [List.map_cons, List.nodup_cons] at h5
      exact h5.2
    have hdisj : ∀ p ∈ kvs, p.1 ∉ (Set c 0 kv.1 kv.2 []).cache.ll.map entry.key := by
      intro p hp hmem
      rw [hc1ll, List.map_take] at hmem
      have hmem2 := List.take_subset _ _ hmem
      simp only [List.map_cons, List.mem_cons] at hmem2
      rcases hmem2 with heq | hin
      · simp only [List.map_cons, List.nodup_cons] at h5
        exact h5.1 (heq ▸ List.mem_map.mpr ⟨p, hp, rfl⟩)
      · exact h6 p (List.mem_cons_of_mem _ hp) hin
    obtain ⟨hresinit, hresll⟩ := ih (Set c 0 kv.1 kv.2 []).cache hc1init hc1max hc1len
      hc1nd hkvsnd hdisj
    refine ⟨by rw [hfold]; exact hresinit, ?_⟩
    rw [hfold, hresll, hc1ll, take_append_take, List.map_cons, List.reverse_cons,
      List.append_assoc, List.singleton_append]

/-- Claim C4: inserting `N > M` distinct fresh keys into a capacity-`M`
cache leaves exactly the `M` most recently inserted keys, most recent
first, with `Len = M`; and a single capacity eviction inside `Set` removes
exactly the current back (least recently used) entry, reporting it to the
eviction callback. -/
theorem claim4_capacity_invariant :
    (∀ (M : Nat) (kvs : List (K × V)), 0 < M → M < kvs.length →
      (kvs.map Prod.fst).Nodup →
      Len (setFold (NewCache K V (M : Int)) kvs) = M ∧
      (setFold (NewCache K V (M : Int)) kvs).ll.map entry.key =
        ((kvs.map Prod.fst).reverse).take M) ∧
    (∀ (c : Cache K V) (now : Int) (k : K) (v : V) (t : entry K V),
      c.cacheInit = true → (c.ll.map entry.key).Nodup → lookup c k = none →
      c.ll.getLast? = some t → c.maxEntries = (c.ll.length : Int) →
      0 < c.maxEntries →
      Set c now k v [] =
        ⟨true, none, { c with ll := ⟨k, v, -1⟩ :: c.ll.dropLast },
          if c.hasOnEvicted then [(t.key, t.value)] else []⟩) := by
  constructor
  · intro M kvs hM hN hnd
    obtain ⟨hresinit, hresll⟩ := setFold_ll M hM kvs (NewCache K V (M : Int)) rfl rfl
      (by simp [NewCache]) (by simp [NewCache]) hnd (by simp [NewCache])
    constructor
    · rw [Len, if_neg (by rw [hresinit]; simp), hresll]
      simp only [NewCache, List.append_nil, List.length_take, List.length_reverse,
        List.length_map]
      omega
    · rw [hresll]
      simp only [NewCache, List.append_nil, List.map_take, List.map_reverse,
        List.map_map]
      rfl
  · intro c now k v t hinit hnd hnone hlast hmax hpos
    have hne : c.ll ≠ [] := by
      intro h
      rw [h] at hlast
      simp at hlast
    rcases c.ll.eq_nil_or_concat with hnil | ⟨A, t', hAt⟩
    · exact absurd hnil hne
    · rw [List.concat_eq_append] at hAt
      have ht' : t' = t := by
        rw [hAt, List.getLast?_concat] at hlast
        exact Option.some.inj hlast
      rw [ht'] at hAt
      have hk : k ∉ c.ll.map entry.key := (lookup_eq_none c k).mp hnone
      have hknotA : k ∉ (A.map entry.key) ∧ k ≠ t.key := by
        rw [hAt] at hk
        simp only [List.map_append, List.map_cons, List.map_nil, List.mem_append,
          List.mem_cons, List.mem_singleton] at hk
        push_neg at hk
        exact ⟨hk.1, hk.2.1⟩
      have htA : t.key ∉ A.map entry.key := by
        rw [hAt] at hnd
        simp only [List.map_append, List.map_cons, List.map_nil] at hnd
        have := List.nodup_append_comm.mp hnd
        simp only [List.singleton_append, List.nodup_cons] at this
        exact this.1
      simp only [Set, hinit, Bool.true_eq_false, if_false, computeExpire, hnone]
      rw [if_pos ⟨by omega, by simp only [List.length_cons, hmax]; push_cast; omega⟩]
      simp only [removeOldest, removeElement]
      rw [if_neg (by simp)]
      rw [hAt, show (⟨k, v, -1⟩ : entry K V) :: (A ++ [t]) =
        ((⟨k, v, -1⟩ : entry K V) :: A) ++ [t] from rfl, List.getLast?_concat]
      simp only []
      have herase : List.eraseP (fun x => x.key == t.key)
          (((⟨k, v, -1⟩ : entry K V) :: A) ++ [t]) = (⟨k, v, -1⟩ : entry K V) :: A := by
        apply eraseP_key_concat
        simp only [List.map_cons, List.mem_cons]
        push_neg
        exact ⟨fun h => hknotA.2 h.symm, htA⟩
      rw [herase, List.dropLast_concat]

/-- Witness for C4: three distinct keys into a capacity-2 cache keep the
last two, most recent first; and the single-step eviction removes exactly
the back entry. -/
theorem claim4_witness :
    Len (setFold (NewCache Nat Nat ((2 : Nat) : Int)) [(1, 10), (2, 20), (3, 30)]) = 2 ∧
    (setFold (NewCache Nat Nat ((2 : Nat) : Int)) [(1, 10), (2, 20), (3, 30)]).ll.map entry.key = [3, 2] ∧
    Set (⟨1, true, [⟨2, 8, -1⟩], true⟩ : Cache Nat Nat) 0 1 9 [] =
      ⟨true, none, ⟨1, true, [⟨1, 9, -1⟩], true⟩, [(2, 8)]⟩ := by
  have h1 := (claim4_capacity_invariant (K := Nat) (V := Nat)).1 2
    [(1, 10), (2, 20), (3, 30)] (by decide) (by decide) (by decide)
  have h2 := (claim4_capacity_invariant (K := Nat) (V := Nat)).2
    (⟨1, true, [⟨2, 8, -1⟩], true⟩ : Cache Nat Nat) 0 1 9 ⟨2, 8, -1⟩
    rfl (by decide) (by decide) (by decide) (by decide) (by decide)
  refine ⟨h1.1, ?_, ?_⟩
  · rw [h1.2]
    decide
  · rw [h2]
    decide

/-! ## Claim C7 — one sweeper pass -/

/-- Characterization of the per-tick loop: with `n` not exceeding the
current size and unique keys, the pass examines exactly the last `n`
positions walking inward from the tail, removes the expired ones
(reporting them to the callback in tail-to-head order) and moves the
surviving examined entries to the front, keeping their relative order. -/
lemma sweepIter_spec (now : Int) (n : Nat) :
    ∀ c : Cache K V, n ≤ c.ll.length → (c.ll.map entry.key).Nodup →
    sweepIter now n c =
      ({ c with ll :=
          (c.ll.drop (c.ll.length - n)).filter (fun e => !isExpired e now)
            ++ c.ll.take (c.ll.length - n) },
       if c.hasOnEvicted = true then
         (((c.ll.drop (c.ll.length - n)).filter (fun e => isExpired e now)).reverse).map
           (fun e => (e.key, e.value))
       else []) := by
  induction n with
  | zero =>
    intro c h hnd
    simp only [sweepIter, Nat.sub_zero, List.drop_length, List.filter_nil,
      List.nil_append, List.take_length, List.reverse_nil, List.map_nil, ite_self]
  | succ n ih =>
    intro c h hnd
    obtain ⟨me, cb, ll, ci⟩ := c
    rcases ll.eq_nil_or_concat with rfl | ⟨A, e, hAe⟩
    · simp at h
    · rw [List.concat_eq_append] at hAe
      subst hAe
      simp only [List.length_append, List.length_cons, List.length_nil] at h ⊢
      have hn : n ≤ A.length := by omega
      have hsub : A.length + 0 + 1 - (n + 1) = A.length - n := by omega
      have hndparts : e.key ∉ A.map entry.key ∧ (A.map entry.key).Nodup := by
        simp only [List.map_append] at hnd
        have h2 := List.nodup_append_comm.mp hnd
        simp only [List.map_cons, List.map_nil, List.singleton_append,
          List.nodup_cons] at h2
        exact h2
      simp only [sweepIter, List.getLast?_concat]
      by_cases hexp : isExpired e now = true
      · have ihA := ih ⟨me, cb, A, ci⟩ hn hndparts.2
        simp only [hexp, if_true, removeElement, eraseP_key_concat A e hndparts.1, ihA]
        rw [hsub, List.drop_append_of_le_length (by omega),
          List.take_append_of_le_length (by omega), List.filter_append,
          List.filter_append]
        simp only [List.filter_cons, hexp, Bool.not_true, List.filter_nil,
          List.append_nil, List.reverse_append, List.reverse_cons, List.reverse_nil,
          List.nil_append, List.singleton_append, List.map_cons]
        cases cb <;> simp
      · have hexpb : isExpired e now = false := Bool.eq_false_iff.mpr hexp
        have ihEA := ih ⟨me, cb, e :: A, ci⟩ (by simp; omega)
          (by simp only [List.map_cons, List.nodup_cons]; exact hndparts)
        simp only [hexp, hexpb, Bool.false_eq_true, if_false, List.dropLast_concat, ihEA]
        have hsub2 : (e :: A).length - n = (A.length - n) + 1 := by
          simp only [List.length_cons]
          omega
        rw [hsub, hsub2, List.drop_succ_cons, List.take_succ_cons,
          List.drop_append_of_le_length (by omega),
          List.take_append_of_le_length (by omega), List.filter_append,
          List.filter_append]
        simp [hexpb, List.append_assoc]

/-- Claim C7: on one sweeper tick the number of examined positions is the
size divided by 100, floored at 50 (the full size below 50 entries), never
exceeding the size; the pass walks from the tail inward, reclaiming
expired entries (callback invoked, tail-to-head order) and moving live
examined entries to the head; an empty structure ends the pass. -/
theorem claim7_sweeper_tick (now : Int) (c : Cache K V)
    (hnd : (c.ll.map entry.key).Nodup) :
    tickIterations c.ll.length =
      (if c.ll.length < 50 then c.ll.length else max (c.ll.length / 100) 50) ∧
    tickIterations c.ll.length ≤ c.ll.length ∧
    (c.ll = [] → expiredTick now c = (c, [])) ∧
    expiredTick now c =
      ({ c with ll :=
          (List.filter (fun e => !isExpired e now)
              (c.ll.drop (c.ll.length - tickIterations c.ll.length))
            ++ c.ll.take (c.ll.length - tickIterations c.ll.length)) },
       if c.hasOnEvicted = true then
         (List.filter (fun e => isExpired e now)
             (c.ll.drop (c.ll.length - tickIterations c.ll.length))).reverse.map
           (fun e => (e.key, e.value))
       else []) := by
  have hform : ∀ m : Nat,
      tickIterations m = if m < 50 then m else max (m / 100) 50 := by
    intro m
    simp only [tickIterations, show (10 : Nat) * 10 = 100 from rfl]
    split_ifs <;> omega
  have hle : tickIterations c.ll.length ≤ c.ll.length := by
    rw [hform]
    split <;> omega
  refine ⟨hform _, hle, ?_, ?_⟩
  · intro hnil
    simp [expiredTick, hnil, tickIterations, sweepIter]
  · simp only [expiredTick]
    exact sweepIter_spec now (tickIterations c.ll.length) c hle hnd

/-- Witness for C7: a two-entry cache at an instant where the back entry
is expired — the whole cache is examined, the expired back entry is
reclaimed and reported to the callback, the live entry survives. -/
theorem claim7_witness :
    expiredTick 10 (⟨0, true, [⟨1, 7, -1⟩, ⟨2, 8, 5⟩], true⟩ : Cache Nat Nat) =
      (⟨0, true, [⟨1, 7, -1⟩], true⟩, [(2, 8)]) := by
  have h := claim7_sweeper_tick 10
    (⟨0, true, [⟨1, 7, -1⟩, ⟨2, 8, 5⟩], true⟩ : Cache Nat Nat) (by decide)
  rw [h.2.2.2]
  decide

end GoLru
